import Mathlib

/-!
Shallow embedding of the core of the Indeed web-scraper pipeline
(`main.py`): the resume section parser (`ResumeParser.parse`), the
cosine-similarity scorer (`cosine_similarity`), and the ranking
operation (`rank_jobs`), together with theorems settling the claims
about them.

Python dictionaries with possibly-missing keys are modelled with
`Option` fields; a Python `KeyError` is modelled with an explicit
error value (`PyError.keyError`).  Python floats are modelled as real
numbers.  The observable side effects of `rank_jobs` (the batch calls
made to the embedding service and the CSV files written through
`JobCSVHandler.save_jobs`) are recorded explicitly in its result, so
that claims about effects can be stated.

The Python string primitives used by the parser (`str.strip`,
`str.lower`, `str.splitlines`, substring search by `re.search` on
literal alternations, `"\n".join`) are given structurally recursive
models over the character list of the string, so that every
definition evaluates by kernel reduction.
-/

namespace IndeedScraper

/-! ### Python string primitives -/

/-- `str.strip()` (whitespace trimming on both ends). -/
def pyStrip (s : String) : String :=
  ⟨((s.data.dropWhile Char.isWhitespace).reverse.dropWhile Char.isWhitespace).reverse⟩

/-- `str.lower()`. -/
def pyLower (s : String) : String :=
  ⟨s.data.map Char.toLower⟩

/-- Whether `pat` starts the character list `s`. -/
def leadEq : List Char → List Char → Bool
  | [], _ => true
  | _ :: _, [] => false
  | a :: as, b :: bs => a == b && leadEq as bs

/-- Whether `pat` occurs as a contiguous substring of `s`. -/
def hasSub (pat : List Char) : List Char → Bool
  | [] => pat.isEmpty
  | c :: rest => leadEq pat (c :: rest) || hasSub pat rest

/-- Split a character list at newline characters. -/
def breakLines : List Char → List (List Char)
  | [] => [[]]
  | c :: rest =>
    match breakLines rest with
    | [] => [[c]]
    | l :: ls => if c = '\n' then [] :: l :: ls else (c :: l) :: ls

/-- `str.splitlines()`.  (Unlike Python this may produce a final empty
line for a trailing newline; the parser loop skips empty lines, so the
difference is unobservable through `parse`.) -/
def splitlines (s : String) : List String :=
  (breakLines s.data).map fun l => ⟨l⟩

/-! ### ResumeParser (`main.py`, class `ResumeParser`) -/

namespace ResumeParser

/-- `ResumeParser.SECTION_PATTERNS`: the fixed, ordered mapping from
section name to detection pattern.  Each Python pattern is an
alternation of literal substrings searched with `re.search`, so it is
modelled by the list of its alternatives. -/
def SECTION_PATTERNS : List (String × List String) :=
  [("experience", ["experience", "work history", "employment"]),
   ("education", ["education", "academic background"]),
   ("skills", ["skills", "technical skills", "abilities"]),
   ("projects", ["projects", "personal projects", "academic projects"]),
   ("leadership & awards", ["leadership", "awards", "honors", "scholarship"])]

/-- Whether `re.search(pat, clean_line.lower())` succeeds for the
pattern of one `(key, pattern)` entry. -/
def matchesEntry (clean : String) (e : String × List String) : Bool :=
  e.2.any fun p => hasSub p.data (pyLower clean).data

/-- The inner `for key, pat in self.SECTION_PATTERNS.items()` loop of
`ResumeParser.parse`: the first entry (in declared order) whose
pattern matches the cleaned line, if any. -/
def lineMatch (clean : String) : Option String :=
  (SECTION_PATTERNS.find? (matchesEntry clean)).map Prod.fst

/-- `sections = {key: [] for key in self.SECTION_PATTERNS.keys()}` -/
def emptySections : List (String × List String) :=
  SECTION_PATTERNS.map fun kp => (kp.1, [])

/-- `sections[current_section].append(clean_line)` -/
def appendLine (secs : List (String × List String)) (key line : String) :
    List (String × List String) :=
  secs.map fun kv => if kv.1 = key then (kv.1, kv.2 ++ [line]) else kv

/-- The body of the `for line in self.resume_text.splitlines()` loop of
`ResumeParser.parse`, acting on the state
`(sections, current_section)`. -/
def parseStep (st : List (String × List String) × Option String) (line : String) :
    List (String × List String) × Option String :=
  let clean := pyStrip line
  if clean = "" then st
  else
    match lineMatch clean with
    | some key => (st.1, some key)
    | none =>
      match st.2 with
      | some cur => (appendLine st.1 cur clean, st.2)
      | none => st

/-- `ResumeParser.parse`: run the line loop over the split document and
keep, for each section with a non-empty accumulator, the newline-join
of its lines, stripped. -/
def parse (resume_text : String) : List (String × String) :=
  let final := (splitlines resume_text).foldl parseStep (emptySections, none)
  (final.1.filter fun kv => !kv.2.isEmpty).map
    fun kv => (kv.1, pyStrip (String.intercalate "\n" kv.2))

/-- One-pass reference collector: the `(section, clean_line)` pairs, in
document order, that the state machine assigns as content. -/
def collectAssignments : Option String → List String → List (String × String)
  | _, [] => []
  | cur, line :: rest =>
    let clean := pyStrip line
    if clean = "" then collectAssignments cur rest
    else
      match lineMatch clean with
      | some k => collectAssignments (some k) rest
      | none =>
        match cur with
        | some c => (c, clean) :: collectAssignments cur rest
        | none => collectAssignments cur rest

/-- The content lines assigned to section `k`, in document order. -/
def assignedTo (k : String) (cur : Option String) (lines : List String) :
    List String :=
  (collectAssignments cur lines).filterMap
    fun p => if p.1 = k then some p.2 else none

/-- Dictionary lookup `sections[k]` on the accumulator state. -/
def getSec (secs : List (String × List String)) (k : String) :
    Option (List String) :=
  match secs with
  | [] => none
  | kv :: rest => if kv.1 = k then some kv.2 else getSec rest k

end ResumeParser

/-! ### Cosine similarity (`main.py`, `cosine_similarity`) -/

/-- Dot product of two vectors (trailing elements of the longer vector
are ignored, matching the componentwise recursion). -/
def dotProduct : List ℝ → List ℝ → ℝ
  | a :: as, b :: bs => a * b + dotProduct as bs
  | _, _ => 0

/-- Euclidean norm of a vector. -/
noncomputable def vecNorm (v : List ℝ) : ℝ :=
  Real.sqrt (dotProduct v v)

/-- `scipy.spatial.distance.cosine(u, v) = 1 - u.v / (|u| |v|)`. -/
noncomputable def scipy_cosine (u v : List ℝ) : ℝ :=
  1 - dotProduct u v / (vecNorm u * vecNorm v)

/-- `cosine_similarity(vec1, vec2) = 1 - cosine(vec1, vec2)`. -/
noncomputable def cosine_similarity (v1 v2 : List ℝ) : ℝ :=
  1 - scipy_cosine v1 v2

/-- A vector with at least one non-zero component. -/
def isNonZeroVec (v : List ℝ) : Prop :=
  ∃ x ∈ v, x ≠ 0

/-! ### rank_jobs (`main.py`, `rank_jobs`) -/

/-- A Python `KeyError` raised by a dictionary subscript. -/
inductive PyError where
  | keyError (key : String)
deriving DecidableEq, Repr

/-- A job record, modelled as a dictionary whose relevant keys may be
absent.  Extra pass-through fields are not modelled; they do not
influence any claim. -/
structure Candidate where
  title : Option String
  company : Option String
  description : Option String
  similarity_score : Option ℝ

/-- The result of a `rank_jobs` call together with its observable
side effects. -/
structure RankOutcome where
  /-- The arguments of the calls made to
  `embedding_service.get_embeddings_batch`, in order. -/
  batch_calls : List (List String)
  /-- The CSV files written through `JobCSVHandler.save_jobs`:
  `(filename, rows)` pairs, in order. -/
  csv_saves : List (String × List Candidate)
  /-- The contents of the caller's `jobs` list after the call
  (`rank_jobs` mutates the job dictionaries in place). -/
  jobs_post : List Candidate
  /-- The return value `ranked_jobs[:top_n]`. -/
  ranked : List Candidate

/-- `f"{job['title']} {job['company']} {job['description']}"`:
each subscript raises `KeyError` when the key is absent. -/
def build_job_text (job : Candidate) : Except PyError String :=
  match job.title with
  | none => .error (.keyError "title")
  | some t =>
    match job.company with
    | none => .error (.keyError "company")
    | some c =>
      match job.description with
      | none => .error (.keyError "description")
      | some d => .ok (t ++ " " ++ c ++ " " ++ d)

/-- The list comprehension
`[f"{job['title']} {job['company']} {job['description']}" for job in jobs]`,
evaluated left to right, propagating the first `KeyError`. -/
def buildTexts : List Candidate → Except PyError (List String)
  | [] => .ok []
  | j :: rest =>
    match build_job_text j with
    | .error e => .error e
    | .ok t =>
      match buildTexts rest with
      | .error e => .error e
      | .ok ts => .ok (t :: ts)

/-- The loop `for job, emb in zip(jobs, job_embeddings):
job["similarity_score"] = cosine_similarity(resume_embedding, emb)`,
applied to one pair. -/
noncomputable def mkScored (resume_embedding : List ℝ) (job : Candidate)
    (emb : List ℝ) : Candidate :=
  { job with similarity_score := some (cosine_similarity resume_embedding emb) }

/-- The key `x["similarity_score"]` used by `sorted`; absent when no
value was ever attached. -/
noncomputable def scoreD (j : Candidate) : ℝ :=
  (j.similarity_score).getD 0

/-- The decoration pass of `sorted(jobs, key=lambda x: x["similarity_score"], ...)`:
the key is computed for every element, in list order, before any
comparison, raising `KeyError` on a job that was never scored. -/
noncomputable def decorate : List Candidate → Except PyError (List (ℝ × Candidate))
  | [] => .ok []
  | j :: rest =>
    match j.similarity_score with
    | none => .error (.keyError "similarity_score")
    | some s =>
      match decorate rest with
      | .error e => .error e
      | .ok ds => .ok ((s, j) :: ds)

/-- The comparison of `sorted(..., reverse=True)` on decorated pairs:
descending by key. -/
def rankLE (a b : ℝ × Candidate) : Prop :=
  b.1 ≤ a.1

noncomputable instance : DecidableRel rankLE :=
  fun a b => Classical.propDecidable (rankLE a b)

instance : IsTotal (ℝ × Candidate) rankLE :=
  ⟨fun a b => le_total b.1 a.1⟩

instance : IsTrans (ℝ × Candidate) rankLE :=
  ⟨fun _ _ _ h1 h2 => le_trans h2 h1⟩

/-- `JobCSVHandler.save_jobs(jobs, filename)`: writes one file, unless
the row list is empty, in which case it only warns and writes
nothing. -/
def save_jobs_effect (jobs : List Candidate) (filename : String) :
    List (String × List Candidate) :=
  if jobs.isEmpty then [] else [(filename, jobs)]

/-- `rank_jobs(resume_embedding, jobs, top_n, embedding_service, output_csv)`.
The embedding service is passed as the function
`get_embeddings_batch` (the `None` default constructs a real
`HFEmbeddingService`, an external collaborator outside the modelled
core, so the argument is mandatory here). -/
noncomputable def rank_jobs (resume_embedding : List ℝ) (jobs : List Candidate)
    (top_n : ℕ) (get_embeddings_batch : List String → List (List ℝ))
    (output_csv : String) : Except PyError RankOutcome :=
  if jobs.isEmpty then
    .ok ⟨[], [], jobs, []⟩
  else
    match buildTexts jobs with
    | .error e => .error e
    | .ok job_texts =>
      let job_embeddings := get_embeddings_batch job_texts
      let scored := List.zipWith (mkScored resume_embedding) jobs job_embeddings
      let jobs_post := scored ++ jobs.drop job_embeddings.length
      match decorate jobs_post with
      | .error e => .error e
      | .ok decorated =>
        let ranked_jobs := (List.insertionSort rankLE decorated).map Prod.snd
        .ok ⟨[job_texts], save_jobs_effect (ranked_jobs.take top_n) output_csv,
             jobs_post, ranked_jobs.take top_n⟩

/-- The string `rank_jobs` builds for a candidate whose three text
fields are all present. -/
def jobTextOf (j : Candidate) : String :=
  j.title.getD "" ++ " " ++ j.company.getD "" ++ " " ++ j.description.getD ""

/-- All three text fields used by `rank_jobs` are present. -/
def hasFields (j : Candidate) : Prop :=
  j.title.isSome = true ∧ j.company.isSome = true ∧ j.description.isSome = true

instance (j : Candidate) : Decidable (hasFields j) :=
  inferInstanceAs (Decidable (j.title.isSome = true ∧ j.company.isSome = true ∧
    j.description.isSome = true))

/-- The stable descending sort performed by
`sorted(jobs, key=lambda x: x["similarity_score"], reverse=True)`
once every key is present. -/
noncomputable def pySortDesc (l : List Candidate) : List Candidate :=
  (List.insertionSort rankLE (l.map fun j => (scoreD j, j))).map Prod.snd

/-- The elements of `l` whose similarity score is `s`, in order. -/
noncomputable def filterScore (s : ℝ) (l : List Candidate) : List Candidate :=
  l.filter fun j => decide (scoreD j = s)

/-! ### Helper lemmas about `rank_jobs` -/

theorem build_job_text_ok (j : Candidate) (h : hasFields j) :
    build_job_text j = .ok (jobTextOf j) := by
  obtain ⟨ht, hc, hd⟩ := h
  obtain ⟨t, et⟩ := Option.isSome_iff_exists.mp ht
  obtain ⟨c, ec⟩ := Option.isSome_iff_exists.mp hc
  obtain ⟨d, ed⟩ := Option.isSome_iff_exists.mp hd
  simp [build_job_text, jobTextOf, et, ec, ed]

theorem buildTexts_ok (jobs : List Candidate) (h : ∀ j ∈ jobs, hasFields j) :
    buildTexts jobs = .ok (jobs.map jobTextOf) := by
  induction jobs with
  | nil => rfl
  | cons j rest ih =>
    have hj := build_job_text_ok j (h j (by simp))
    have hr := ih fun x hx => h x (by simp [hx])
    simp [buildTexts, hj, hr]

theorem build_job_text_err_title (j : Candidate) (h : j.title = none) :
    build_job_text j = .error (.keyError "title") := by
  simp [build_job_text, h]

theorem build_job_text_err_company (j : Candidate)
    (h1 : j.title.isSome = true) (h2 : j.company = none) :
    build_job_text j = .error (.keyError "company") := by
  obtain ⟨t, et⟩ := Option.isSome_iff_exists.mp h1
  simp [build_job_text, et, h2]

theorem build_job_text_err_description (j : Candidate)
    (h1 : j.title.isSome = true) (h2 : j.company.isSome = true)
    (h3 : j.description = none) :
    build_job_text j = .error (.keyError "description") := by
  obtain ⟨t, et⟩ := Option.isSome_iff_exists.mp h1
  obtain ⟨c, ec⟩ := Option.isSome_iff_exists.mp h2
  simp [build_job_text, et, ec, h3]

theorem buildTexts_append_error (A rest : List Candidate) (j : Candidate)
    (e : PyError) (hA : ∀ a ∈ A, hasFields a)
    (hj : build_job_text j = .error e) :
    buildTexts (A ++ j :: rest) = .error e := by
  induction A with
  | nil => simp [buildTexts, hj]
  | cons a A ih =>
    have ha := build_job_text_ok a (hA a (by simp))
    have hrec := ih fun x hx => hA x (by simp [hx])
    simp [buildTexts, ha, hrec]

theorem rank_jobs_buildText_error (resume_embedding : List ℝ)
    (A : List Candidate) (j : Candidate) (rest : List Candidate)
    (top_n : ℕ) (svc : List String → List (List ℝ)) (csv : String)
    (e : PyError) (hA : ∀ a ∈ A, hasFields a)
    (hj : build_job_text j = .error e) :
    rank_jobs resume_embedding (A ++ j :: rest) top_n svc csv = .error e := by
  have hne : (A ++ j :: rest) ≠ [] := by simp
  have hbt := buildTexts_append_error A rest j e hA hj
  rw [rank_jobs]
  simp [List.isEmpty_eq_false.mpr hne, hbt]

theorem decorate_ok (l : List Candidate)
    (h : ∀ j ∈ l, (j.similarity_score).isSome = true) :
    decorate l = .ok (l.map fun j => (scoreD j, j)) := by
  induction l with
  | nil => rfl
  | cons j rest ih =>
    obtain ⟨s, hs⟩ := Option.isSome_iff_exists.mp (h j (by simp))
    have hr := ih fun x hx => h x (by simp [hx])
    simp [decorate, hs, hr, scoreD]

theorem zipWith_mkScored_isSome (ref : List ℝ) (jobs : List Candidate) :
    ∀ (embs : List (List ℝ)),
      ∀ x ∈ List.zipWith (mkScored ref) jobs embs,
        (x.similarity_score).isSome = true := by
  induction jobs with
  | nil => intro embs x hx; simp at hx
  | cons j rest ih =>
    intro embs x hx
    cases embs with
    | nil => simp at hx
    | cons e es =>
      rcases List.mem_cons.mp (by simpa using hx) with rfl | hx'
      · simp [mkScored]
      · exact ih es x hx'

theorem decorate_append_error (A B : List Candidate) (j0 : Candidate)
    (hA : ∀ a ∈ A, (a.similarity_score).isSome = true)
    (h0 : j0.similarity_score = none) :
    decorate (A ++ j0 :: B) = .error (.keyError "similarity_score") := by
  induction A with
  | nil => simp [decorate, h0]
  | cons a A ih =>
    obtain ⟨s, hs⟩ := Option.isSome_iff_exists.mp (hA a (by simp))
    have hrec := ih fun x hx => hA x (by simp [hx])
    simp [decorate, hs, hrec]

theorem rank_jobs_ok (ref : List ℝ) (jobs : List Candidate) (top_n : ℕ)
    (svc : List String → List (List ℝ)) (csv : String)
    (hne : jobs ≠ [])
    (hf : ∀ j ∈ jobs, hasFields j)
    (hlen : (svc (jobs.map jobTextOf)).length = jobs.length) :
    rank_jobs ref jobs top_n svc csv =
      .ok ⟨[jobs.map jobTextOf],
           save_jobs_effect
             ((pySortDesc (List.zipWith (mkScored ref) jobs
                (svc (jobs.map jobTextOf)))).take top_n) csv,
           List.zipWith (mkScored ref) jobs (svc (jobs.map jobTextOf)),
           (pySortDesc (List.zipWith (mkScored ref) jobs
              (svc (jobs.map jobTextOf)))).take top_n⟩ := by
  have hbt := buildTexts_ok jobs hf
  have hdrop : jobs.drop (svc (jobs.map jobTextOf)).length = [] := by
    rw [hlen]; exact List.drop_length _
  have hdec := decorate_ok _ (zipWith_mkScored_isSome ref jobs (svc (jobs.map jobTextOf)))
  rw [rank_jobs]
  simp [hne, hbt, hdrop, hdec, pySortDesc]

theorem pySortDesc_perm (l : List Candidate) : (pySortDesc l).Perm l := by
  have h2 := (List.perm_insertionSort rankLE (l.map fun j => (scoreD j, j))).map Prod.snd
  rw [List.map_map] at h2
  have h3 : List.map (Prod.snd ∘ fun j => (scoreD j, j)) l = l := by
    simp [Function.comp_def]
  rw [h3] at h2
  exact h2

theorem pySortDesc_length (l : List Candidate) : (pySortDesc l).length = l.length :=
  (pySortDesc_perm l).length_eq

theorem pySortDesc_sorted (l : List Candidate) :
    (pySortDesc l).Sorted fun a b => scoreD b ≤ scoreD a := by
  have hs := List.sorted_insertionSort rankLE (l.map fun j => (scoreD j, j))
  have hmem : ∀ x ∈ List.insertionSort rankLE (l.map fun j => (scoreD j, j)),
      x.1 = scoreD x.2 := by
    intro x hx
    obtain ⟨j, _, rfl⟩ := List.mem_map.mp ((List.mem_insertionSort rankLE).mp hx)
    rfl
  rw [pySortDesc]
  refine List.pairwise_map.mpr ?_
  refine hs.imp_of_mem ?_
  intro a b ha hb hr
  have h1 := hmem a ha
  have h2 := hmem b hb
  rw [← h1, ← h2]
  exact hr

theorem filter_fst_orderedInsert (s : ℝ) (a : ℝ × Candidate)
    (l : List (ℝ × Candidate)) :
    (List.orderedInsert rankLE a l).filter (fun x => decide (x.1 = s)) =
      (a :: l).filter (fun x => decide (x.1 = s)) := by
  induction l with
  | nil => rfl
  | cons b t ih =>
    by_cases hr : rankLE a b
    · rw [List.orderedInsert, if_pos hr]
    · rw [List.orderedInsert, if_neg hr]
      by_cases ha : a.1 = s
      · have hb : ¬b.1 = s := by
          have hlt : a.1 < b.1 := not_le.mp hr
          rw [ha] at hlt
          exact ne_of_gt hlt
        simp [List.filter_cons, ha, hb, ih]
      · by_cases hb : b.1 = s <;> simp [List.filter_cons, ha, hb, ih]

theorem filter_fst_insertionSort (s : ℝ) (l : List (ℝ × Candidate)) :
    (List.insertionSort rankLE l).filter (fun x => decide (x.1 = s)) =
      l.filter (fun x => decide (x.1 = s)) := by
  induction l with
  | nil => rfl
  | cons a t ih =>
    rw [List.insertionSort, filter_fst_orderedInsert]
    simp [List.filter_cons, ih]

theorem pySortDesc_stable (s : ℝ) (l : List Candidate) :
    filterScore s (pySortDesc l) = filterScore s l := by
  rw [pySortDesc, filterScore, List.filter_map]
  have hcongr : (List.insertionSort rankLE (l.map fun j => (scoreD j, j))).filter
      ((fun j => decide (scoreD j = s)) ∘ Prod.snd) =
      (List.insertionSort rankLE (l.map fun j => (scoreD j, j))).filter
        (fun x => decide (x.1 = s)) := by
    apply List.filter_congr
    intro x hx
    obtain ⟨j, _, rfl⟩ := List.mem_map.mp ((List.mem_insertionSort rankLE).mp hx)
    rfl
  rw [hcongr, filter_fst_insertionSort, List.filter_map, List.map_map]
  simp [filterScore, Function.comp_def]

/-! ### Helper lemmas about the section parser -/

namespace ResumeParser

theorem lineMatch_mem_keys {clean k : String} (h : lineMatch clean = some k) :
    k ∈ SECTION_PATTERNS.map Prod.fst := by
  obtain ⟨e, he, rfl⟩ := Option.map_eq_some'.mp h
  exact List.mem_map_of_mem Prod.fst (List.mem_of_find?_eq_some he)

theorem appendLine_nil (c l : String) : appendLine [] c l = [] := rfl

theorem appendLine_cons (kv : String × List String)
    (rest : List (String × List String)) (c l : String) :
    appendLine (kv :: rest) c l =
      (if kv.1 = c then (kv.1, kv.2 ++ [l]) else kv) :: appendLine rest c l := rfl

theorem getSec_isSome_of_mem_keys :
    ∀ (secs : List (String × List String)) (k : String),
      k ∈ secs.map Prod.fst → (getSec secs k).isSome = true := by
  intro secs
  induction secs with
  | nil => intro k hk; simp at hk
  | cons kv rest ih =>
    intro k hk
    rw [List.map_cons] at hk
    by_cases hh : kv.1 = k
    · simp [getSec, hh]
    · rcases List.mem_cons.mp hk with h1 | h1
      · exact absurd h1.symm hh
      · simpa [getSec, hh] using ih k h1

theorem getSec_appendLine (secs : List (String × List String)) (c l k : String) :
    getSec (appendLine secs c l) k =
      if k = c then (getSec secs k).map (· ++ [l]) else getSec secs k := by
  induction secs with
  | nil => by_cases h : k = c <;> simp [appendLine_nil, getSec, h]
  | cons kv rest ih =>
    rw [appendLine_cons]
    by_cases h2 : kv.1 = k
    · subst h2
      by_cases h1 : kv.1 = c
      · subst h1
        simp [getSec]
      · have h1' : ¬kv.1 = c := h1
        simp [getSec, h1']
    · have h2' : ¬k = kv.1 := fun h => h2 h.symm
      by_cases h1 : kv.1 = c
      · subst h1
        simp [getSec, h2, h2', ih]
      · simp [getSec, h1, h2, ih]

theorem appendLine_keys (secs : List (String × List String)) (c l : String) :
    (appendLine secs c l).map Prod.fst = secs.map Prod.fst := by
  induction secs with
  | nil => rfl
  | cons kv rest ih =>
    by_cases h : kv.1 = c <;> simp [appendLine, h] <;>
      simpa [appendLine] using ih

theorem parseStep_keys (st : List (String × List String) × Option String)
    (line : String) :
    ((parseStep st line).1).map Prod.fst = st.1.map Prod.fst := by
  rw [parseStep]
  by_cases h : pyStrip line = ""
  · simp [h]
  · simp only [h, if_false]
    cases hm : lineMatch (pyStrip line) with
    | some key => simp
    | none =>
      cases hc : st.2 with
      | some cur => simp [appendLine_keys]
      | none => simp

theorem fold_keys :
    ∀ (lines : List String) (st : List (String × List String) × Option String),
      ((lines.foldl parseStep st).1).map Prod.fst = st.1.map Prod.fst := by
  intro lines
  induction lines with
  | nil => intro st; rfl
  | cons line rest ih =>
    intro st
    rw [List.foldl_cons, ih, parseStep_keys]

theorem fold_no_match :
    ∀ (lines : List String) (secs : List (String × List String)),
      (∀ line ∈ lines, lineMatch (pyStrip line) = none) →
      lines.foldl parseStep (secs, none) = (secs, none) := by
  intro lines
  induction lines with
  | nil => intro secs _; rfl
  | cons line rest ih =>
    intro secs h
    have hstep : parseStep (secs, none) line = (secs, none) := by
      rw [parseStep]
      by_cases he : pyStrip line = ""
      · simp [he]
      · simp [he, h line (by simp)]
    rw [List.foldl_cons, hstep]
    exact ih secs fun x hx => h x (by simp [hx])

theorem getSec_emptySections_of_mem :
    ∀ (l : List (String × List String)) (k : String),
      k ∈ l.map Prod.fst →
      getSec (l.map fun kp => (kp.1, ([] : List String))) k = some [] := by
  intro l
  induction l with
  | nil => intro k hk; simp at hk
  | cons kv rest ih =>
    intro k hk
    rw [List.map_cons] at hk
    by_cases h : kv.1 = k
    · simp [getSec, h]
    · rcases List.mem_cons.mp hk with h1 | h1
      · exact absurd h1.symm h
      · simpa [getSec, h] using ih k h1

theorem getSec_of_mem_nodup :
    ∀ (secs : List (String × List String)) (kv : String × List String),
      (secs.map Prod.fst).Nodup → kv ∈ secs → getSec secs kv.1 = some kv.2 := by
  intro secs
  induction secs with
  | nil => intro kv _ hm; simp at hm
  | cons hd rest ih =>
    intro kv hn hm
    rcases List.mem_cons.mp hm with rfl | hm'
    · simp [getSec]
    · have hne : hd.1 ≠ kv.1 := by
        intro he
        have : kv.1 ∈ rest.map Prod.fst := List.mem_map_of_mem Prod.fst hm'
        rw [← he] at this
        exact (List.nodup_cons.mp (by simpa using hn)).1 this
      have hn' : (rest.map Prod.fst).Nodup := (List.nodup_cons.mp (by simpa using hn)).2
      simpa [getSec, hne] using ih kv hn' hm'

theorem fold_getSec :
    ∀ (lines : List String) (secs : List (String × List String))
      (cur : Option String) (k : String),
      secs.map Prod.fst = SECTION_PATTERNS.map Prod.fst →
      (∀ c, cur = some c → (getSec secs c).isSome = true) →
      getSec ((lines.foldl parseStep (secs, cur)).1) k =
        (getSec secs k).map (· ++ assignedTo k cur lines) := by
  intro lines
  induction lines with
  | nil =>
    intro secs cur k _ _
    cases h : getSec secs k <;> simp [assignedTo, collectAssignments, h]
  | cons line rest ih =>
    intro secs cur k hkeys hcur
    rw [List.foldl_cons]
    by_cases he : pyStrip line = ""
    · have hstep : parseStep (secs, cur) line = (secs, cur) := by
        rw [parseStep]; simp [he]
      have hassign : assignedTo k cur (line :: rest) = assignedTo k cur rest := by
        simp [assignedTo, collectAssignments, he]
      rw [hstep, hassign]
      exact ih secs cur k hkeys hcur
    · cases hm : lineMatch (pyStrip line) with
      | some key =>
        have hstep : parseStep (secs, cur) line = (secs, some key) := by
          rw [parseStep]; simp [he, hm]
        have hassign : assignedTo k cur (line :: rest) =
            assignedTo k (some key) rest := by
          simp [assignedTo, collectAssignments, he, hm]
        rw [hstep, hassign]
        refine ih secs (some key) k hkeys ?_
        intro c hc
        cases hc
        exact getSec_isSome_of_mem_keys secs key
          (hkeys ▸ lineMatch_mem_keys hm)
      | none =>
        cases hc : cur with
        | none =>
          have hstep : parseStep (secs, none) line = (secs, none) := by
            rw [parseStep]; simp [he, hm]
          have hassign : assignedTo k none (line :: rest) =
              assignedTo k none rest := by
            simp [assignedTo, collectAssignments, he, hm]
          rw [hstep, hassign]
          exact ih secs none k hkeys fun c hc => by cases hc
        | some c =>
          have hstep : parseStep (secs, some c) line =
              (appendLine secs c (pyStrip line), some c) := by
            rw [parseStep]; simp [he, hm]
          rw [hstep]
          have hkeys' : (appendLine secs c (pyStrip line)).map Prod.fst =
              SECTION_PATTERNS.map Prod.fst := by
            rw [appendLine_keys]; exact hkeys
          have hcur' : ∀ c', some c = some c' →
              (getSec (appendLine secs c (pyStrip line)) c').isSome = true := by
            intro c' hc'
            cases hc'
            rw [getSec_appendLine]
            simp only [if_pos rfl]
            have := hcur c hc
            cases hv : getSec secs c
            · rw [hv] at this; simp at this
            · simp [hv]
          rw [ih _ (some c) k hkeys' hcur', getSec_appendLine]
          have hassign : assignedTo k (some c) (line :: rest) =
              if k = c then pyStrip line :: assignedTo k (some c) rest
              else assignedTo k (some c) rest := by
            by_cases hkc : k = c
            · subst hkc
              simp [assignedTo, collectAssignments, he, hm]
            · simp [assignedTo, collectAssignments, he, hm, hkc, Ne.symm hkc]
          rw [hassign]
          by_cases hkc : k = c
          · subst hkc
            simp only [if_pos rfl]
            cases hv : getSec secs k <;> simp [hv]
          · simp [hkc]

end ResumeParser

/-! ### Helper lemmas about cosine similarity -/

theorem dotProduct_comm : ∀ a b : List ℝ, dotProduct a b = dotProduct b a := by
  intro a
  induction a with
  | nil => intro b; cases b <;> rfl
  | cons x xs ih =>
    intro b
    cases b with
    | nil => rfl
    | cons y ys => simp [dotProduct, ih, mul_comm]

theorem dotProduct_self_nonneg : ∀ a : List ℝ, 0 ≤ dotProduct a a := by
  intro a
  induction a with
  | nil => simp [dotProduct]
  | cons x xs ih =>
    simpa [dotProduct] using add_nonneg (mul_self_nonneg x) ih

theorem dotProduct_self_pos (a : List ℝ) (h : isNonZeroVec a) :
    0 < dotProduct a a := by
  induction a with
  | nil => obtain ⟨x, hx, _⟩ := h; simp at hx
  | cons y ys ih =>
    obtain ⟨x, hx, hx0⟩ := h
    rcases List.mem_cons.mp hx with rfl | hx'
    · have h1 : 0 < x * x := mul_self_pos.mpr hx0
      simpa [dotProduct] using add_pos_of_pos_of_nonneg h1 (dotProduct_self_nonneg ys)
    · have h2 : 0 < dotProduct ys ys := ih ⟨x, hx', hx0⟩
      simpa [dotProduct] using add_pos_of_nonneg_of_pos (mul_self_nonneg y) h2

/-! ### Concrete data used by witnesses and counterexamples -/

/-- A candidate with all three text fields present and no score. -/
def cJob : Candidate := ⟨some "t", some "c", some "d", none⟩

/-- A candidate whose `title` key is absent. -/
def jobNoTitle : Candidate := ⟨none, some "c", some "d", none⟩

/-- A candidate whose `company` key is absent. -/
def jobNoCompany : Candidate := ⟨some "t", none, some "d", none⟩

/-- A candidate whose `description` key is absent. -/
def jobNoDescription : Candidate := ⟨some "t", some "c", none, none⟩

/-- A well-formed candidate. -/
def jobA : Candidate := ⟨some "Job1", some "A", some "desc1", none⟩

/-- Another well-formed candidate. -/
def jobB : Candidate := ⟨some "Job2", some "B", some "desc2", none⟩

/-- A contract-abiding embedding service: one vector per input text. -/
noncomputable def svcOne : List String → List (List ℝ) :=
  fun ts => ts.map fun _ => [1]

/-- The mock embedding service of `mock_embedding_service.py`: one
vector `[1.0, 0.0, 0.0]` per input text. -/
noncomputable def svcMock : List String → List (List ℝ) :=
  fun ts => ts.map fun _ => [1, 0, 0]

/-- A contract-violating embedding service that always returns two
vectors. -/
noncomputable def svcTwo : List String → List (List ℝ) :=
  fun _ => [[1], [1]]

/-- A contract-violating embedding service that always returns no
vectors. -/
noncomputable def svcNone : List String → List (List ℝ) :=
  fun _ => []

/-! ### Claims -/

/-- Claim C4: for the empty candidate list, `rank_jobs` returns an
empty result immediately, making no call to `get_embeddings_batch`
(the recorded batch-call trace is empty), writing no file, and
raising no error. -/
theorem claim_C4 (resume_embedding : List ℝ) (top_n : ℕ)
    (svc : List String → List (List ℝ)) (csv : String) :
    rank_jobs resume_embedding [] top_n svc csv = .ok ⟨[], [], [], []⟩ := rfl

/-- Claim C8: `cosine_similarity` is symmetric on equal-length
non-zero vectors and satisfies identity, `cosine_similarity a a = 1`,
for every non-zero vector `a`. -/
theorem claim_C8 :
    (∀ a b : List ℝ, a.length = b.length → isNonZeroVec a → isNonZeroVec b →
        cosine_similarity a b = cosine_similarity b a) ∧
    (∀ a : List ℝ, isNonZeroVec a → cosine_similarity a a = 1) := by
  constructor
  · intro a b _ _ _
    rw [cosine_similarity, cosine_similarity, scipy_cosine, scipy_cosine,
        dotProduct_comm a b, mul_comm (vecNorm a) (vecNorm b)]
  · intro a ha
    have hpos := dotProduct_self_pos a ha
    rw [cosine_similarity, scipy_cosine, vecNorm,
        Real.mul_self_sqrt (dotProduct_self_nonneg a), div_self (ne_of_gt hpos)]
    ring

/-- Witness for C8 at the concrete vector `[1, 0]`. -/
theorem claim_C8_witness :
    isNonZeroVec [(1 : ℝ), 0] ∧ cosine_similarity [(1 : ℝ), 0] [(1 : ℝ), 0] = 1 :=
  ⟨⟨1, by simp, one_ne_zero⟩, claim_C8.2 [(1 : ℝ), 0] ⟨1, by simp, one_ne_zero⟩⟩

/-- Claim C6: each line of the document is tested, trimmed and
lower-cased, against the section patterns in declared order; the first
matching pattern sets the current section and the heading line is
discarded (the accumulators are unchanged); a non-matching, non-empty
line is appended to the current section when one is active, and
discarded otherwise. -/
theorem claim_C6 (secs : List (String × List String)) (cur : Option String)
    (line : String) :
    (∀ k, ResumeParser.lineMatch (pyStrip line) = some k →
        ResumeParser.parseStep (secs, cur) line = (secs, some k) ∧
        ∃ pats pre post, ResumeParser.SECTION_PATTERNS = pre ++ (k, pats) :: post ∧
          ResumeParser.matchesEntry (pyStrip line) (k, pats) = true ∧
          ∀ e ∈ pre, ResumeParser.matchesEntry (pyStrip line) e = false) ∧
    (ResumeParser.lineMatch (pyStrip line) = none → pyStrip line ≠ "" →
        (∀ c, cur = some c →
            ResumeParser.parseStep (secs, cur) line =
              (ResumeParser.appendLine secs c (pyStrip line), some c)) ∧
        (cur = none → ResumeParser.parseStep (secs, cur) line = (secs, cur))) := by
  constructor
  · intro k hk
    have hne : pyStrip line ≠ "" := by
      intro he
      rw [he] at hk
      have h0 : ResumeParser.lineMatch "" = none := by decide
      rw [h0] at hk
      exact Option.noConfusion hk
    refine ⟨?_, ?_⟩
    · rw [ResumeParser.parseStep]
      simp [hne, hk]
    · obtain ⟨e, he, hfst⟩ := Option.map_eq_some'.mp hk
      obtain ⟨hp, pre, post, heq, hpre⟩ := List.find?_eq_some.mp he
      refine ⟨e.2, pre, post, ?_, ?_, ?_⟩
      · rw [← hfst]
        exact heq
      · rw [← hfst]
        exact hp
      · intro x hx
        simpa using hpre x hx
  · intro hm hne
    constructor
    · intro c hc
      rw [ResumeParser.parseStep]
      simp [hne, hm, hc]
    · intro hc
      rw [ResumeParser.parseStep]
      simp [hne, hm, hc]

/-- Witness for C6: a heading line with surrounding whitespace is
recognized as the experience section and not stored as content. -/
theorem claim_C6_witness :
    ResumeParser.lineMatch (pyStrip "  EXPERIENCE ") = some "experience" ∧
    ResumeParser.parseStep (ResumeParser.emptySections, none) "  EXPERIENCE " =
      (ResumeParser.emptySections, some "experience") :=
  ⟨by decide,
   ((claim_C6 ResumeParser.emptySections none "  EXPERIENCE ").1 "experience"
      (by decide)).1⟩

/-- Claim C7: a section key appears in the result of
`ResumeParser.parse` only if at least one content line was assigned to
it (its accumulator at the end of the run is non-empty), and a
document with zero recognized heading lines yields an empty
mapping. -/
theorem claim_C7 :
    (∀ text k v, (k, v) ∈ ResumeParser.parse text →
        ∃ ls : List String, ls ≠ [] ∧ v = pyStrip (String.intercalate "\n" ls) ∧
          (k, ls) ∈ ((splitlines text).foldl ResumeParser.parseStep
            (ResumeParser.emptySections, none)).1) ∧
    (∀ text, (∀ line ∈ splitlines text, ResumeParser.lineMatch (pyStrip line) = none) →
        ResumeParser.parse text = []) := by
  constructor
  · intro text k v hkv
    rw [ResumeParser.parse] at hkv
    obtain ⟨kv, hmem, heq⟩ := List.mem_map.mp hkv
    obtain ⟨hin, hkeep⟩ := List.mem_filter.mp hmem
    cases heq
    refine ⟨kv.2, ?_, rfl, ?_⟩
    · intro h
      rw [h] at hkeep
      simp at hkeep
    · simpa using hin
  · intro text h
    have hfold := ResumeParser.fold_no_match (splitlines text)
      ResumeParser.emptySections h
    rw [ResumeParser.parse, hfold]
    rfl

/-- Witness for C7: a document with no recognizable heading yields the
empty mapping. -/
theorem claim_C7_witness :
    (∀ line ∈ splitlines "hello there",
        ResumeParser.lineMatch (pyStrip line) = none) ∧
    ResumeParser.parse "hello there" = [] :=
  ⟨by decide, claim_C7.2 "hello there" (by decide)⟩

/-- Claim C10: every section entry produced by `ResumeParser.parse` is
the newline-join of all content lines assigned to that section across
the whole document, in document order — repeated headings for a
section accumulate into its single entry and never reset it. -/
theorem claim_C10 (text k v : String) (h : (k, v) ∈ ResumeParser.parse text) :
    v = pyStrip (String.intercalate "\n"
      (ResumeParser.assignedTo k none (splitlines text))) := by
  rw [ResumeParser.parse] at h
  obtain ⟨kv, hmem, heq⟩ := List.mem_map.mp h
  obtain ⟨hin, hkeep⟩ := List.mem_filter.mp hmem
  have hkeysE : ResumeParser.emptySections.map Prod.fst =
      ResumeParser.SECTION_PATTERNS.map Prod.fst := by
    simp [ResumeParser.emptySections, List.map_map, Function.comp_def]
  have hkeys : (((splitlines text).foldl ResumeParser.parseStep
      (ResumeParser.emptySections, none)).1).map Prod.fst =
      ResumeParser.SECTION_PATTERNS.map Prod.fst := by
    rw [ResumeParser.fold_keys, hkeysE]
  have hnodup : (ResumeParser.SECTION_PATTERNS.map Prod.fst).Nodup := by decide
  have hget := ResumeParser.getSec_of_mem_nodup _ kv (hkeys ▸ hnodup) hin
  have hmain := ResumeParser.fold_getSec (splitlines text)
    ResumeParser.emptySections none kv.1 hkeysE (fun c hc => by cases hc)
  have hkmem : kv.1 ∈ ResumeParser.SECTION_PATTERNS.map Prod.fst := by
    rw [← hkeys]
    exact List.mem_map_of_mem Prod.fst hin
  have hempty : ResumeParser.getSec ResumeParser.emptySections kv.1 = some [] :=
    ResumeParser.getSec_emptySections_of_mem ResumeParser.SECTION_PATTERNS kv.1 hkmem
  rw [hget, hempty] at hmain
  have hkv2 : kv.2 = ResumeParser.assignedTo kv.1 none (splitlines text) := by
    have h2 := Option.some.inj hmain
    simpa using h2
  cases heq
  rw [hkv2]

/-- Witness for C10: two occurrences of the experience heading
accumulate into one entry. -/
theorem claim_C10_witness :
    ("experience", "A\nB") ∈ ResumeParser.parse "EXPERIENCE\nA\nEXPERIENCE\nB" ∧
    "A\nB" = pyStrip (String.intercalate "\n"
      (ResumeParser.assignedTo "experience" none
        (splitlines "EXPERIENCE\nA\nEXPERIENCE\nB"))) :=
  ⟨by decide, claim_C10 "EXPERIENCE\nA\nEXPERIENCE\nB" "experience" "A\nB" (by decide)⟩

/-- Claim C3: on a non-empty candidate list, with one embedding per
candidate, `rank_jobs` returns the scored candidates in descending
similarity order by a stable sort — there is a list `L`, a permutation
of the scored candidates, sorted descending by score, in which
candidates of equal score keep their input order (filtering either
list by any score value gives the same sequence) — truncated to the
first `min(top_n, number of candidates)` entries. -/
theorem claim_C3 (resume_embedding : List ℝ) (jobs : List Candidate) (top_n : ℕ)
    (svc : List String → List (List ℝ)) (csv : String)
    (hne : jobs ≠ [])
    (hf : ∀ j ∈ jobs, hasFields j)
    (hlen : (svc (jobs.map jobTextOf)).length = jobs.length) :
    ∃ (outcome : RankOutcome) (L : List Candidate),
      rank_jobs resume_embedding jobs top_n svc csv = .ok outcome ∧
      L.Perm outcome.jobs_post ∧
      (L.Sorted fun a b => scoreD b ≤ scoreD a) ∧
      (∀ s : ℝ, filterScore s L = filterScore s outcome.jobs_post) ∧
      outcome.ranked = L.take top_n ∧
      outcome.ranked.length = min top_n jobs.length := by
  have hok := rank_jobs_ok resume_embedding jobs top_n svc csv hne hf hlen
  refine ⟨_, pySortDesc (List.zipWith (mkScored resume_embedding) jobs
      (svc (jobs.map jobTextOf))), hok, ?_, ?_, ?_, rfl, ?_⟩
  · exact pySortDesc_perm _
  · exact pySortDesc_sorted _
  · intro s
    exact pySortDesc_stable s _
  · show ((pySortDesc _).take top_n).length = min top_n jobs.length
    rw [List.length_take, pySortDesc_length, List.length_zipWith, hlen,
        Nat.min_self]

/-- Witness for C3 at two candidates with identical embeddings. -/
theorem claim_C3_witness :
    (([jobA, jobB] : List Candidate) ≠ []) ∧
    (∀ j ∈ [jobA, jobB], hasFields j) ∧
    ((svcMock ([jobA, jobB].map jobTextOf)).length = [jobA, jobB].length) ∧
    (∃ (outcome : RankOutcome) (L : List Candidate),
      rank_jobs [1, 0, 0] [jobA, jobB] 2 svcMock "test_ranked_jobs.csv" =
        .ok outcome ∧
      L.Perm outcome.jobs_post ∧
      (L.Sorted fun a b => scoreD b ≤ scoreD a) ∧
      (∀ s : ℝ, filterScore s L = filterScore s outcome.jobs_post) ∧
      outcome.ranked = L.take 2 ∧
      outcome.ranked.length = min 2 [jobA, jobB].length) :=
  ⟨by simp, by decide, rfl,
   claim_C3 [1, 0, 0] [jobA, jobB] 2 svcMock "test_ranked_jobs.csv"
     (by simp) (by decide) rfl⟩

/-- Claim C9: `rank_jobs` attaches a `similarity_score` to every
candidate dictionary of the input list, not only the returned top-N
(the post-call contents of the caller's list all carry a score), and
each returned record is one of those mutated input records. -/
theorem claim_C9 (resume_embedding : List ℝ) (jobs : List Candidate) (top_n : ℕ)
    (svc : List String → List (List ℝ)) (csv : String)
    (hf : ∀ j ∈ jobs, hasFields j)
    (hlen : (svc (jobs.map jobTextOf)).length = jobs.length) :
    ∃ outcome : RankOutcome,
      rank_jobs resume_embedding jobs top_n svc csv = .ok outcome ∧
      outcome.jobs_post.length = jobs.length ∧
      (∀ j ∈ outcome.jobs_post, (j.similarity_score).isSome = true) ∧
      (∀ j ∈ outcome.ranked, j ∈ outcome.jobs_post) := by
  by_cases hne : jobs = []
  · subst hne
    exact ⟨⟨[], [], [], []⟩, rfl, rfl, by simp, by simp⟩
  · have hok := rank_jobs_ok resume_embedding jobs top_n svc csv hne hf hlen
    refine ⟨_, hok, ?_, ?_, ?_⟩
    · show (List.zipWith (mkScored resume_embedding) jobs
        (svc (jobs.map jobTextOf))).length = jobs.length
      rw [List.length_zipWith, hlen, Nat.min_self]
    · exact zipWith_mkScored_isSome resume_embedding jobs (svc (jobs.map jobTextOf))
    · intro j hj
      have h1 : j ∈ pySortDesc (List.zipWith (mkScored resume_embedding) jobs
          (svc (jobs.map jobTextOf))) := List.mem_of_mem_take hj
      exact (pySortDesc_perm _).mem_iff.mp h1

/-- Witness for C9: with three candidates and `top_n = 2`, the
candidate left out of the result is still scored. -/
theorem claim_C9_witness :
    (∀ j ∈ [jobA, jobB, cJob], hasFields j) ∧
    ((svcMock ([jobA, jobB, cJob].map jobTextOf)).length =
      [jobA, jobB, cJob].length) ∧
    (∃ outcome : RankOutcome,
      rank_jobs [1, 0, 0] [jobA, jobB, cJob] 2 svcMock "t.csv" = .ok outcome ∧
      outcome.jobs_post.length = [jobA, jobB, cJob].length ∧
      (∀ j ∈ outcome.jobs_post, (j.similarity_score).isSome = true) ∧
      (∀ j ∈ outcome.ranked, j ∈ outcome.jobs_post)) :=
  ⟨by decide, rfl,
   claim_C9 [1, 0, 0] [jobA, jobB, cJob] 2 svcMock "t.csv" (by decide) rfl⟩

/-- Claim C2 counterexample: a candidate whose `title` key is missing
makes `rank_jobs` raise `KeyError` instead of treating the field as
the empty string. -/
theorem claim_C2_counterexample :
    rank_jobs [1] [jobNoTitle] 5 svcOne "out.csv" = .error (.keyError "title") :=
  rfl

/-- Claim C2 as amended: the embedding input string is the `title`,
`company` and `description` fields in that fixed order separated by
single spaces, and the batch call receives exactly these strings; but
a candidate missing any of the three fields makes `rank_jobs` raise a
`KeyError` for that field rather than using the empty string — for
whichever of `title`, `company`, `description` is absent first in the
f-string's subscript order, at any position in the list after
well-formed candidates. -/
theorem claim_C2_amended :
    (∀ (t c d : String) (s : Option ℝ),
        build_job_text ⟨some t, some c, some d, s⟩ =
          .ok (t ++ " " ++ c ++ " " ++ d)) ∧
    (∀ resume_embedding jobs top_n svc csv, jobs ≠ [] →
        (∀ j ∈ jobs, hasFields j) →
        (svc (jobs.map jobTextOf)).length = jobs.length →
        ∃ outcome : RankOutcome,
          rank_jobs resume_embedding jobs top_n svc csv = .ok outcome ∧
          outcome.batch_calls = [jobs.map jobTextOf]) ∧
    (∀ resume_embedding (A : List Candidate) (j : Candidate) rest top_n svc csv,
        (∀ a ∈ A, hasFields a) → j.title = none →
        rank_jobs resume_embedding (A ++ j :: rest) top_n svc csv =
          .error (.keyError "title")) ∧
    (∀ resume_embedding (A : List Candidate) (j : Candidate) rest top_n svc csv,
        (∀ a ∈ A, hasFields a) → j.title.isSome = true → j.company = none →
        rank_jobs resume_embedding (A ++ j :: rest) top_n svc csv =
          .error (.keyError "company")) ∧
    (∀ resume_embedding (A : List Candidate) (j : Candidate) rest top_n svc csv,
        (∀ a ∈ A, hasFields a) → j.title.isSome = true →
        j.company.isSome = true → j.description = none →
        rank_jobs resume_embedding (A ++ j :: rest) top_n svc csv =
          .error (.keyError "description")) := by
  refine ⟨?_, ?_, ?_, ?_, ?_⟩
  · intro t c d s
    rfl
  · intro re jobs top_n svc csv hne hf hlen
    exact ⟨_, rank_jobs_ok re jobs top_n svc csv hne hf hlen, rfl⟩
  · intro re A j rest top_n svc csv hA ht
    exact rank_jobs_buildText_error re A j rest top_n svc csv _ hA
      (build_job_text_err_title j ht)
  · intro re A j rest top_n svc csv hA h1 h2
    exact rank_jobs_buildText_error re A j rest top_n svc csv _ hA
      (build_job_text_err_company j h1 h2)
  · intro re A j rest top_n svc csv hA h1 h2 h3
    exact rank_jobs_buildText_error re A j rest top_n svc csv _ hA
      (build_job_text_err_description j h1 h2 h3)

/-- Witness for C2 as amended: one concrete instance per missing
field — a missing title at the head, a missing company after a
well-formed candidate, and a missing description followed by further
candidates. -/
theorem claim_C2_amended_witness :
    (jobNoTitle.title = none ∧
      rank_jobs [1] [jobNoTitle] 3 svcOne "other.csv" =
        .error (.keyError "title")) ∧
    ((∀ a ∈ [jobA], hasFields a) ∧ jobNoCompany.title.isSome = true ∧
      jobNoCompany.company = none ∧
      rank_jobs [1] ([jobA] ++ jobNoCompany :: []) 3 svcOne "o2.csv" =
        .error (.keyError "company")) ∧
    (jobNoDescription.description = none ∧
      rank_jobs [1] [jobNoDescription, cJob] 3 svcOne "o3.csv" =
        .error (.keyError "description")) :=
  ⟨⟨rfl, claim_C2_amended.2.2.1 [1] [] jobNoTitle [] 3 svcOne "other.csv"
      (by simp) rfl⟩,
   ⟨by decide, rfl, rfl,
    claim_C2_amended.2.2.2.1 [1] [jobA] jobNoCompany [] 3 svcOne "o2.csv"
      (by decide) rfl rfl⟩,
   ⟨rfl, claim_C2_amended.2.2.2.2 [1] [] jobNoDescription [cJob] 3 svcOne "o3.csv"
      (by simp) rfl rfl rfl⟩⟩

/-- Claim C1 counterexample: a batch result longer than the candidate
list is a length mismatch, yet `rank_jobs` succeeds, silently
discarding the extra embeddings through `zip` truncation. -/
theorem claim_C1_counterexample :
    (svcTwo ([cJob].map jobTextOf)).length ≠ ([cJob] : List Candidate).length ∧
    ∃ outcome : RankOutcome, rank_jobs [1] [cJob] 3 svcTwo "out.csv" = .ok outcome := by
  constructor
  · decide
  · exact ⟨_, rfl⟩

/-- Claim C1 as amended: when the batch result is shorter than the
candidate count and no candidate carries a pre-existing score, the
ranking call does fail hard — the `zip` pairs only the prefix, and the
sort then raises `KeyError` on an unscored candidate; but when the
batch result is longer, the extra embeddings are silently discarded
and the call succeeds. -/
theorem claim_C1_amended (resume_embedding : List ℝ) (jobs : List Candidate)
    (top_n : ℕ) (svc : List String → List (List ℝ)) (csv : String)
    (hf : ∀ j ∈ jobs, hasFields j)
    (hs : ∀ j ∈ jobs, j.similarity_score = none)
    (hshort : (svc (jobs.map jobTextOf)).length < jobs.length) :
    rank_jobs resume_embedding jobs top_n svc csv =
      .error (.keyError "similarity_score") := by
  have hne : jobs ≠ [] := by
    intro h
    subst h
    simp at hshort
  have hbt := buildTexts_ok jobs hf
  have hdrop_ne : jobs.drop (svc (jobs.map jobTextOf)).length ≠ [] := by
    have hpos : 0 < (jobs.drop (svc (jobs.map jobTextOf)).length).length := by
      rw [List.length_drop]
      omega
    exact List.length_pos.mp hpos
  obtain ⟨j0, B, hdropEq⟩ := List.exists_cons_of_ne_nil hdrop_ne
  have hj0mem : j0 ∈ jobs :=
    List.drop_subset _ jobs (hdropEq ▸ List.mem_cons_self j0 B)
  have hdec := decorate_append_error
    (List.zipWith (mkScored resume_embedding) jobs (svc (jobs.map jobTextOf)))
    B j0
    (zipWith_mkScored_isSome resume_embedding jobs (svc (jobs.map jobTextOf)))
    (hs j0 hj0mem)
  rw [rank_jobs]
  simp [hne, hbt, hdropEq, hdec]

/-- Witness for C1 as amended: a batch service returning no vectors
for one unscored candidate makes `rank_jobs` raise. -/
theorem claim_C1_amended_witness :
    (∀ j ∈ [cJob], hasFields j) ∧
    (∀ j ∈ [cJob], j.similarity_score = none) ∧
    ((svcNone ([cJob].map jobTextOf)).length < ([cJob] : List Candidate).length) ∧
    rank_jobs [1] [cJob] 2 svcNone "o1.csv" =
      .error (.keyError "similarity_score") :=
  ⟨by decide,
   by
     intro j hj
     rw [List.mem_singleton] at hj
     subst hj
     rfl,
   by decide,
   claim_C1_amended [1] [cJob] 2 svcNone "o1.csv" (by decide)
     (by
       intro j hj
       rw [List.mem_singleton] at hj
       subst hj
       rfl)
     (by decide)⟩

/-- Claim C5 counterexample: a successful `rank_jobs` call writes the
ranked result to `output_csv` itself — its recorded CSV-save trace is
non-empty, so producing the return value is not its only effect. -/
theorem claim_C5_counterexample :
    ∃ outcome : RankOutcome,
      rank_jobs [1] [cJob] 1 svcOne "ranked_jobs.csv" = .ok outcome ∧
      outcome.csv_saves ≠ [] := by
  refine ⟨_, rfl, ?_⟩
  simp [save_jobs_effect]

/-- Claim C5 as amended: persistence is inlined in `rank_jobs`, not
left to the caller — every successful non-trivial ranking call writes
exactly its returned ranking to `output_csv` through
`JobCSVHandler.save_jobs` before returning. -/
theorem claim_C5_amended (resume_embedding : List ℝ) (jobs : List Candidate)
    (top_n : ℕ) (svc : List String → List (List ℝ)) (csv : String)
    (hne : jobs ≠ [])
    (hf : ∀ j ∈ jobs, hasFields j)
    (hlen : (svc (jobs.map jobTextOf)).length = jobs.length)
    (htop : 0 < top_n) :
    ∃ outcome : RankOutcome,
      rank_jobs resume_embedding jobs top_n svc csv = .ok outcome ∧
      outcome.ranked ≠ [] ∧
      outcome.csv_saves = [(csv, outcome.ranked)] := by
  have hok := rank_jobs_ok resume_embedding jobs top_n svc csv hne hf hlen
  have hrne : (pySortDesc (List.zipWith (mkScored resume_embedding) jobs
      (svc (jobs.map jobTextOf)))).take top_n ≠ [] := by
    have hpos : 0 < ((pySortDesc (List.zipWith (mkScored resume_embedding) jobs
        (svc (jobs.map jobTextOf)))).take top_n).length := by
      rw [List.length_take, pySortDesc_length, List.length_zipWith, hlen,
          Nat.min_self]
      have hjpos : 0 < jobs.length := List.length_pos.mpr hne
      omega
    exact List.length_pos.mp hpos
  refine ⟨_, hok, hrne, ?_⟩
  show save_jobs_effect _ csv = _
  rw [save_jobs_effect, if_neg]
  simp [hrne]

/-- Witness for C5 as amended, at a concrete one-candidate input. -/
theorem claim_C5_amended_witness :
    (([jobA] : List Candidate) ≠ []) ∧
    (∀ j ∈ [jobA], hasFields j) ∧
    ((svcMock ([jobA].map jobTextOf)).length = [jobA].length) ∧
    (0 < 1) ∧
    (∃ outcome : RankOutcome,
      rank_jobs [1, 0, 0] [jobA] 1 svcMock "w.csv" = .ok outcome ∧
      outcome.ranked ≠ [] ∧
      outcome.csv_saves = [("w.csv", outcome.ranked)]) :=
  ⟨by simp, by decide, rfl, by decide,
   claim_C5_amended [1, 0, 0] [jobA] 1 svcMock "w.csv" (by simp) (by decide)
     rfl (by decide)⟩

end IndeedScraper
